import Mathlib

/-!
Shallow embedding of `taskboardcli` (src/src/main.rs).

The program keeps a `TaskBoard` (number of lists, the lists, the 1-based
active-list index), reads the persisted JSON file at startup, runs a
key-event loop (`handle_events`), and writes the file at shutdown.

Modelling decisions, each tied to the source:
* `TaskList.tasks : Vec<String>` in the source, so tasks are plain strings
  here; the unused Rust `Task` struct (title/due) never participates in any
  behavior and is not modelled.
* The backing store (`./data/lists.json`) is modelled by `DB`:
  `missing` (the file is absent, so `fs::read_to_string` returns `Err`,
  which `read_db`/`create_list`/`delete_list` propagate with `?`),
  `malformed` (the file reads but `serde_json::from_str` fails, which the
  source maps to `vec![]`), and `content ls` (a well-formed file holding
  `ls`).  `fs::write` and `serde_json::to_vec` are modelled as always
  succeeding.
* Rust panics (index out of bounds, `usize` underflow in `active_list - 1`
  or `tasks_size - 1`, and `.expect(..)` on an `Err`) are modelled as
  `none`: a handler returns `Option StepResult`.
* The 63 per-character branches of `handle_events` (one `if` per letter
  `A`-`Z`/`a`-`z`, digit and space, each appending that character) are
  folded into the single predicate `typable` and one append; characters
  outside that set fall through every `if` and are no-ops, exactly as in
  the source.
* Only key-press events are modelled (`key.kind == Press` guards every
  branch); the other event kinds fall through to `Ok(false)` unchanged.
* File accesses are reported in the `fx` trace field of a step so that
  temporal claims about store access can be stated.
-/

/-- `struct TaskList { id, title, tasks }` (tasks are `Vec<String>`). -/
structure TaskList where
  id : Nat
  title : String
  tasks : List String
deriving Repr, DecidableEq

/-- `struct TaskBoard { num_lists, lists, active_list }`. -/
structure TaskBoard where
  num_lists : Nat
  lists : List TaskList
  active_list : Nat
deriving Repr, DecidableEq

/-- `enum MenuItem { Home, AddingList, AddingTask }`. -/
inductive MenuItem where
  | Home
  | AddingList
  | AddingTask
deriving Repr, DecidableEq

/-- The persisted backing store `./data/lists.json`. -/
inductive DB where
  | missing
  | malformed
  | content (ls : List TaskList)
deriving Repr, DecidableEq

/-- One access to the backing store. -/
inductive FileOp where
  | read
  | write
deriving Repr, DecidableEq

/-- Key events reaching `handle_events` (press events only). -/
inductive Key where
  | enter
  | backspace
  | left
  | right
  | char (c : Char)
  | other
deriving Repr, DecidableEq

/-- Result of one `handle_events` call: the mode, the board, the store,
the returned quit flag, and the trace of store accesses made. -/
structure StepResult where
  menu : MenuItem
  board : TaskBoard
  db : DB
  quit : Bool
  fx : List FileOp
deriving Repr, DecidableEq

/-- `read_db`: `fs::read_to_string(DB_PATH)?` errors when the file is
missing; a parse failure yields `vec![]`; otherwise the parsed lists. -/
def read_db (db : DB) : Except Unit (List TaskList) :=
  match db with
  | .missing => .error ()
  | .malformed => .ok []
  | .content ls => .ok ls

/-- `create_list`: re-reads the store, appends a fresh list with
`id = parsed.len() + 1`, empty title and no tasks, writes the result back,
and returns it. -/
def create_list (db : DB) : Except Unit (List TaskList × DB) :=
  match read_db db with
  | .error e => .error e
  | .ok parsed =>
    let parsed := parsed ++ [⟨parsed.length + 1, "", []⟩]
    .ok (parsed, .content parsed)

/-- `delete_list`: re-reads the store, pops the last list (`parsed.pop()`
guarded by a `match` on the length, so the empty store stays empty),
writes the result back, and returns it. -/
def delete_list (db : DB) : Except Unit (List TaskList × DB) :=
  match read_db db with
  | .error e => .error e
  | .ok parsed =>
    let parsed := parsed.dropLast
    .ok (parsed, .content parsed)

/-- `write_db`: serialize `taskboard.lists` over the store. -/
def write_db (b : TaskBoard) : List TaskList × DB :=
  (b.lists, .content b.lists)

/-- `main` before the loop: `num_lists` and `lists` are initialized from two
`read_db().expect("valid read")` calls and `active_list = 1`; a read error
panics the process (`none`). -/
def startup (db : DB) : Option (TaskBoard × List FileOp) :=
  match read_db db with
  | .error _ => none
  | .ok ls => some (⟨ls.length, ls, 1⟩, [.read, .read])

/-- The exact character set enumerated by the per-character branches of
`handle_events`: `A`-`Z`, `a`-`z`, `0`-`9`, and space. -/
def typable (c : Char) : Bool :=
  ('A' ≤ c && c ≤ 'Z') || ('a' ≤ c && c ≤ 'z') || ('0' ≤ c && c ≤ '9') || c == ' '

/-- `MenuItem::AddingTask`, character branch:
`tasks_size = lists[active_list - 1].tasks.len()` then
`lists[active_list - 1].tasks[tasks_size - 1] += c`.  `active_list = 0` or
an empty task vector underflows/indexes out of bounds (panic → `none`). -/
def appendLastTask (b : TaskBoard) (c : Char) : Option TaskBoard :=
  match b.active_list with
  | 0 => none
  | i + 1 =>
    match b.lists.get? i with
    | none => none
    | some l =>
      match l.tasks.length with
      | 0 => none
      | j + 1 =>
        match l.tasks.get? j with
        | none => none
        | some t =>
          some { b with lists := b.lists.set i { l with tasks := l.tasks.set j (t ++ c.toString) } }

/-- `MenuItem::AddingList`, character branch:
`lists[num_lists - 1].title += c`; `num_lists = 0` underflows (panic). -/
def appendLastTitle (b : TaskBoard) (c : Char) : Option TaskBoard :=
  match b.num_lists with
  | 0 => none
  | i + 1 =>
    match b.lists.get? i with
    | none => none
    | some l =>
      some { b with lists := b.lists.set i { l with title := l.title ++ c.toString } }

/-- `Home` branch, key `'a'`: `match num_lists { 0 => return Ok(false), _ =>
lists[active_list - 1].tasks.push("") }`. -/
def pushEmptyTask (b : TaskBoard) : Option TaskBoard :=
  match b.active_list with
  | 0 => none
  | i + 1 =>
    match b.lists.get? i with
    | none => none
    | some l =>
      some { b with lists := b.lists.set i { l with tasks := l.tasks ++ [""] } }

/-- `Home` branch, key `'c'`: `lists[active_list - 1].tasks.pop()`
(`Vec::pop` on an empty vector is a no-op). -/
def popLastTask (b : TaskBoard) : Option TaskBoard :=
  match b.active_list with
  | 0 => none
  | i + 1 =>
    match b.lists.get? i with
    | none => none
    | some l =>
      some { b with lists := b.lists.set i { l with tasks := l.tasks.dropLast } }

/-- `MenuItem::Home` dispatch of `handle_events`, in source order:
Enter, `'q'`, `'n'`, `'a'`, `'c'`, `'d'`, `'h'`/Left, `'l'`/Right,
digits `'0'`-`'9'`; every other key falls through to `Ok(false)`. -/
def stepHome (b : TaskBoard) (db : DB) (k : Key) : Option StepResult :=
  match k with
  | .enter => some ⟨.Home, b, db, false, []⟩
  | .left =>
    some ⟨.Home, (if b.active_list > 1 then { b with active_list := b.active_list - 1 } else b),
          db, false, []⟩
  | .right =>
    some ⟨.Home, (if b.active_list < b.num_lists then { b with active_list := b.active_list + 1 } else b),
          db, false, []⟩
  | .char c =>
    if c = 'q' then some ⟨.Home, b, db, true, []⟩
    else if c = 'n' then
      match create_list db with
      | .error _ => none
      | .ok (ls, db') =>
        some ⟨.AddingList, { b with lists := ls, num_lists := ls.length }, db', false,
              [.read, .write]⟩
    else if c = 'a' then
      match b.num_lists with
      | 0 => some ⟨.Home, b, db, false, []⟩
      | _ + 1 =>
        match pushEmptyTask b with
        | none => none
        | some b' => some ⟨.AddingTask, b', db, false, []⟩
    else if c = 'c' then
      match popLastTask b with
      | none => none
      | some b' => some ⟨.Home, b', db, false, []⟩
    else if c = 'd' then
      match delete_list db with
      | .error _ => none
      | .ok (ls, db') =>
        some ⟨.Home, { b with lists := ls, num_lists := ls.length }, db', false,
              [.read, .write]⟩
    else if c = 'h' then
      some ⟨.Home, (if b.active_list > 1 then { b with active_list := b.active_list - 1 } else b),
            db, false, []⟩
    else if c = 'l' then
      some ⟨.Home, (if b.active_list < b.num_lists then { b with active_list := b.active_list + 1 } else b),
            db, false, []⟩
    else if c = '0' then some ⟨.Home, { b with active_list := 0 }, db, false, []⟩
    else if c = '1' then some ⟨.Home, { b with active_list := 1 }, db, false, []⟩
    else if c = '2' then some ⟨.Home, { b with active_list := 2 }, db, false, []⟩
    else if c = '3' then some ⟨.Home, { b with active_list := 3 }, db, false, []⟩
    else if c = '4' then some ⟨.Home, { b with active_list := 4 }, db, false, []⟩
    else if c = '5' then some ⟨.Home, { b with active_list := 5 }, db, false, []⟩
    else if c = '6' then some ⟨.Home, { b with active_list := 6 }, db, false, []⟩
    else if c = '7' then some ⟨.Home, { b with active_list := 7 }, db, false, []⟩
    else if c = '8' then some ⟨.Home, { b with active_list := 8 }, db, false, []⟩
    else if c = '9' then some ⟨.Home, { b with active_list := 9 }, db, false, []⟩
    else some ⟨.Home, b, db, false, []⟩
  | _ => some ⟨.Home, b, db, false, []⟩

/-- `MenuItem::AddingList` dispatch: Enter returns to Home; a typable
character appends to the last list's title; everything else falls through. -/
def stepAddingList (b : TaskBoard) (db : DB) (k : Key) : Option StepResult :=
  match k with
  | .enter => some ⟨.Home, b, db, false, []⟩
  | .char c =>
    if typable c then
      match appendLastTitle b c with
      | none => none
      | some b' => some ⟨.AddingList, b', db, false, []⟩
    else some ⟨.AddingList, b, db, false, []⟩
  | _ => some ⟨.AddingList, b, db, false, []⟩

/-- `MenuItem::AddingTask` dispatch: Enter returns to Home; a typable
character appends to the last task of the active list. -/
def stepAddingTask (b : TaskBoard) (db : DB) (k : Key) : Option StepResult :=
  match k with
  | .enter => some ⟨.Home, b, db, false, []⟩
  | .char c =>
    if typable c then
      match appendLastTask b c with
      | none => none
      | some b' => some ⟨.AddingTask, b', db, false, []⟩
    else some ⟨.AddingTask, b, db, false, []⟩
  | _ => some ⟨.AddingTask, b, db, false, []⟩

/-- One `handle_events` call that observed key `k` as a press event. -/
def step (m : MenuItem) (b : TaskBoard) (db : DB) (k : Key) : Option StepResult :=
  match m with
  | .Home => stepHome b db k
  | .AddingList => stepAddingList b db k
  | .AddingTask => stepAddingTask b db k

/-- Case analysis of the `MenuItem::Home` branch on a character key: the
outcome is exactly one of the source's `if` arms (quit, new list, add task,
cross task, delete list, left, right, digit jump) or the fall-through no-op. -/
theorem stepHome_char_cases (b : TaskBoard) (db : DB) (c : Char) (r : StepResult)
    (h : stepHome b db (.char c) = some r) :
    (c = 'q' ∧ r = ⟨.Home, b, db, true, []⟩) ∨
    (c = 'n' ∧ ∃ ls db', create_list db = .ok (ls, db') ∧
      r = ⟨.AddingList, { b with lists := ls, num_lists := ls.length }, db', false, [.read, .write]⟩) ∨
    (c = 'a' ∧ b.num_lists = 0 ∧ r = ⟨.Home, b, db, false, []⟩) ∨
    (c = 'a' ∧ b.num_lists ≠ 0 ∧ ∃ b', pushEmptyTask b = some b' ∧
      r = ⟨.AddingTask, b', db, false, []⟩) ∨
    (c = 'c' ∧ ∃ b', popLastTask b = some b' ∧ r = ⟨.Home, b', db, false, []⟩) ∨
    (c = 'd' ∧ ∃ ls db', delete_list db = .ok (ls, db') ∧
      r = ⟨.Home, { b with lists := ls, num_lists := ls.length }, db', false, [.read, .write]⟩) ∨
    (c = 'h' ∧ r = ⟨.Home,
      (if b.active_list > 1 then { b with active_list := b.active_list - 1 } else b), db, false, []⟩) ∨
    (c = 'l' ∧ r = ⟨.Home,
      (if b.active_list < b.num_lists then { b with active_list := b.active_list + 1 } else b), db, false, []⟩) ∨
    (∃ d, d < 10 ∧ c = Char.ofNat (48 + d) ∧
      r = ⟨.Home, { b with active_list := d }, db, false, []⟩) ∨
    (r = ⟨.Home, b, db, false, []⟩) := by
  simp only [stepHome] at h
  by_cases hq : c = 'q'
  · rw [if_pos hq] at h
    exact Or.inl ⟨hq, (Option.some.inj h).symm⟩
  rw [if_neg hq] at h
  by_cases hn : c = 'n'
  · rw [if_pos hn] at h
    cases hcl : create_list db with
    | error e => rw [hcl] at h; exact Option.noConfusion h
    | ok p =>
      obtain ⟨ls, db'⟩ := p
      rw [hcl] at h
      exact Or.inr (Or.inl ⟨hn, ls, db', rfl, (Option.some.inj h).symm⟩)
  rw [if_neg hn] at h
  by_cases ha : c = 'a'
  · rw [if_pos ha] at h
    cases hm : b.num_lists with
    | zero =>
      rw [hm] at h
      exact Or.inr (Or.inr (Or.inl ⟨ha, rfl, (Option.some.inj h).symm⟩))
    | succ m =>
      rw [hm] at h
      cases hp : pushEmptyTask b with
      | none => rw [hp] at h; exact Option.noConfusion h
      | some b' =>
        rw [hp] at h
        exact Or.inr (Or.inr (Or.inr (Or.inl ⟨ha, by omega, b', rfl, (Option.some.inj h).symm⟩)))
  rw [if_neg ha] at h
  by_cases hc : c = 'c'
  · rw [if_pos hc] at h
    cases hp : popLastTask b with
    | none => rw [hp] at h; exact Option.noConfusion h
    | some b' =>
      rw [hp] at h
      exact Or.inr (Or.inr (Or.inr (Or.inr (Or.inl ⟨hc, b', rfl, (Option.some.inj h).symm⟩))))
  rw [if_neg hc] at h
  by_cases hd : c = 'd'
  · rw [if_pos hd] at h
    cases hdl : delete_list db with
    | error e => rw [hdl] at h; exact Option.noConfusion h
    | ok p =>
      obtain ⟨ls, db'⟩ := p
      rw [hdl] at h
      exact Or.inr (Or.inr (Or.inr (Or.inr (Or.inr (Or.inl ⟨hd, ls, db', rfl, (Option.some.inj h).symm⟩)))))
  rw [if_neg hd] at h
  by_cases hh : c = 'h'
  · rw [if_pos hh] at h
    exact Or.inr (Or.inr (Or.inr (Or.inr (Or.inr (Or.inr (Or.inl ⟨hh, (Option.some.inj h).symm⟩))))))
  rw [if_neg hh] at h
  by_cases hl : c = 'l'
  · rw [if_pos hl] at h
    exact Or.inr (Or.inr (Or.inr (Or.inr (Or.inr (Or.inr (Or.inr (Or.inl ⟨hl, (Option.some.inj h).symm⟩)))))))
  rw [if_neg hl] at h
  by_cases h0 : c = '0'
  · rw [if_pos h0] at h
    exact Or.inr (Or.inr (Or.inr (Or.inr (Or.inr (Or.inr (Or.inr (Or.inr (Or.inl ⟨0, by omega, by rw [h0], (Option.some.inj h).symm⟩))))))))
  rw [if_neg h0] at h
  by_cases h1 : c = '1'
  · rw [if_pos h1] at h
    exact Or.inr (Or.inr (Or.inr (Or.inr (Or.inr (Or.inr (Or.inr (Or.inr (Or.inl ⟨1, by omega, by rw [h1], (Option.some.inj h).symm⟩))))))))
  rw [if_neg h1] at h
  by_cases h2 : c = '2'
  · rw [if_pos h2] at h
    exact Or.inr (Or.inr (Or.inr (Or.inr (Or.inr (Or.inr (Or.inr (Or.inr (Or.inl ⟨2, by omega, by rw [h2], (Option.some.inj h).symm⟩))))))))
  rw [if_neg h2] at h
  by_cases h3 : c = '3'
  · rw [if_pos h3] at h
    exact Or.inr (Or.inr (Or.inr (Or.inr (Or.inr (Or.inr (Or.inr (Or.inr (Or.inl ⟨3, by omega, by rw [h3], (Option.some.inj h).symm⟩))))))))
  rw [if_neg h3] at h
  by_cases h4 : c = '4'
  · rw [if_pos h4] at h
    exact Or.inr (Or.inr (Or.inr (Or.inr (Or.inr (Or.inr (Or.inr (Or.inr (Or.inl ⟨4, by omega, by rw [h4], (Option.some.inj h).symm⟩))))))))
  rw [if_neg h4] at h
  by_cases h5 : c = '5'
  · rw [if_pos h5] at h
    exact Or.inr (Or.inr (Or.inr (Or.inr (Or.inr (Or.inr (Or.inr (Or.inr (Or.inl ⟨5, by omega, by rw [h5], (Option.some.inj h).symm⟩))))))))
  rw [if_neg h5] at h
  by_cases h6 : c = '6'
  · rw [if_pos h6] at h
    exact Or.inr (Or.inr (Or.inr (Or.inr (Or.inr (Or.inr (Or.inr (Or.inr (Or.inl ⟨6, by omega, by rw [h6], (Option.some.inj h).symm⟩))))))))
  rw [if_neg h6] at h
  by_cases h7 : c = '7'
  · rw [if_pos h7] at h
    exact Or.inr (Or.inr (Or.inr (Or.inr (Or.inr (Or.inr (Or.inr (Or.inr (Or.inl ⟨7, by omega, by rw [h7], (Option.some.inj h).symm⟩))))))))
  rw [if_neg h7] at h
  by_cases h8 : c = '8'
  · rw [if_pos h8] at h
    exact Or.inr (Or.inr (Or.inr (Or.inr (Or.inr (Or.inr (Or.inr (Or.inr (Or.inl ⟨8, by omega, by rw [h8], (Option.some.inj h).symm⟩))))))))
  rw [if_neg h8] at h
  by_cases h9 : c = '9'
  · rw [if_pos h9] at h
    exact Or.inr (Or.inr (Or.inr (Or.inr (Or.inr (Or.inr (Or.inr (Or.inr (Or.inl ⟨9, by omega, by rw [h9], (Option.some.inj h).symm⟩))))))))
  rw [if_neg h9] at h
  exact Or.inr (Or.inr (Or.inr (Or.inr (Or.inr (Or.inr (Or.inr (Or.inr (Or.inr (Option.some.inj h).symm))))))))

/-- Case analysis of the `MenuItem::AddingList` branch: Enter returns to
Home, a typable character appends to the last list's title, and every other
key is the fall-through no-op. -/
theorem stepAddingList_cases (b : TaskBoard) (db : DB) (k : Key) (r : StepResult)
    (h : stepAddingList b db k = some r) :
    (k = .enter ∧ r = ⟨.Home, b, db, false, []⟩) ∨
    (∃ c, k = .char c ∧ typable c = true ∧ ∃ b', appendLastTitle b c = some b' ∧
      r = ⟨.AddingList, b', db, false, []⟩) ∨
    (r = ⟨.AddingList, b, db, false, []⟩) := by
  cases k with
  | enter => exact Or.inl ⟨rfl, (Option.some.inj h).symm⟩
  | char c =>
    simp only [stepAddingList] at h
    by_cases ht : typable c
    · rw [if_pos ht] at h
      cases hp : appendLastTitle b c with
      | none => rw [hp] at h; exact Option.noConfusion h
      | some b' =>
        rw [hp] at h
        exact Or.inr (Or.inl ⟨c, rfl, ht, b', hp, (Option.some.inj h).symm⟩)
    · rw [if_neg ht] at h
      exact Or.inr (Or.inr (Option.some.inj h).symm)
  | backspace => exact Or.inr (Or.inr (Option.some.inj h).symm)
  | left => exact Or.inr (Or.inr (Option.some.inj h).symm)
  | right => exact Or.inr (Or.inr (Option.some.inj h).symm)
  | other => exact Or.inr (Or.inr (Option.some.inj h).symm)

/-- Case analysis of the `MenuItem::AddingTask` branch: Enter returns to
Home, a typable character appends to the last task of the active list, and
every other key is the fall-through no-op. -/
theorem stepAddingTask_cases (b : TaskBoard) (db : DB) (k : Key) (r : StepResult)
    (h : stepAddingTask b db k = some r) :
    (k = .enter ∧ r = ⟨.Home, b, db, false, []⟩) ∨
    (∃ c, k = .char c ∧ typable c = true ∧ ∃ b', appendLastTask b c = some b' ∧
      r = ⟨.AddingTask, b', db, false, []⟩) ∨
    (r = ⟨.AddingTask, b, db, false, []⟩) := by
  cases k with
  | enter => exact Or.inl ⟨rfl, (Option.some.inj h).symm⟩
  | char c =>
    simp only [stepAddingTask] at h
    by_cases ht : typable c
    · rw [if_pos ht] at h
      cases hp : appendLastTask b c with
      | none => rw [hp] at h; exact Option.noConfusion h
      | some b' =>
        rw [hp] at h
        exact Or.inr (Or.inl ⟨c, rfl, ht, b', hp, (Option.some.inj h).symm⟩)
    · rw [if_neg ht] at h
      exact Or.inr (Or.inr (Option.some.inj h).symm)
  | backspace => exact Or.inr (Or.inr (Option.some.inj h).symm)
  | left => exact Or.inr (Or.inr (Option.some.inj h).symm)
  | right => exact Or.inr (Or.inr (Option.some.inj h).symm)
  | other => exact Or.inr (Or.inr (Option.some.inj h).symm)

/-- Writing back the element already at an index leaves the list unchanged. -/
theorem set_get_self {α : Type} (xs : List α) (i : Nat) (x : α)
    (h : xs.get? i = some x) : xs.set i x = xs := by
  induction xs generalizing i with
  | nil => simp at h
  | cons y ys ih =>
    cases i with
    | zero => simp_all
    | succ j => simpa using ih j (by simpa using h)

/-- The board produced by `appendLastTitle` changes nothing besides the
title of the list at position `num_lists - 1`. -/
theorem appendLastTitle_frame (b b' : TaskBoard) (c : Char)
    (h : appendLastTitle b c = some b') :
    b'.num_lists = b.num_lists ∧ b'.active_list = b.active_list ∧
    b'.lists.length = b.lists.length ∧
    (∀ j, j ≠ b.num_lists - 1 → b'.lists.get? j = b.lists.get? j) ∧
    (∃ l, b.lists.get? (b.num_lists - 1) = some l ∧
      b'.lists.get? (b.num_lists - 1) = some { l with title := l.title ++ c.toString }) := by
  obtain ⟨n, ls, a⟩ := b
  cases n with
  | zero => exact Option.noConfusion h
  | succ i =>
    dsimp only [appendLastTitle] at h
    cases hg : ls.get? i with
    | none => rw [hg] at h; exact Option.noConfusion h
    | some l =>
      rw [hg] at h
      obtain rfl := (Option.some.inj h).symm
      obtain ⟨hi, -⟩ := List.get?_eq_some.mp hg
      refine ⟨rfl, rfl, List.length_set .., ?_, ?_⟩
      · intro j hj
        have hj' : j ≠ i := by simpa using hj
        exact List.get?_set_ne _ _ (fun hij => hj' hij.symm)
      · exact ⟨l, by simpa using hg, by simpa using List.get?_set_eq_of_lt _ hi⟩

/-- Inversion for `popLastTask`: success determines the shape of the input
and the output board, which keeps `num_lists` and `active_list`. -/
theorem popLastTask_inv (b b' : TaskBoard) (h : popLastTask b = some b') :
    ∃ i l, b.active_list = i + 1 ∧ b.lists.get? i = some l ∧
      b' = ⟨b.num_lists, b.lists.set i { l with tasks := l.tasks.dropLast }, b.active_list⟩ := by
  obtain ⟨n, ls, a⟩ := b
  cases a with
  | zero => exact Option.noConfusion h
  | succ i =>
    dsimp only [popLastTask] at h
    cases hg : ls.get? i with
    | none => rw [hg] at h; exact Option.noConfusion h
    | some l =>
      rw [hg] at h
      exact ⟨i, l, rfl, hg, (Option.some.inj h).symm⟩

/-- Inversion for `pushEmptyTask`. -/
theorem pushEmptyTask_inv (b b' : TaskBoard) (h : pushEmptyTask b = some b') :
    ∃ i l, b.active_list = i + 1 ∧ b.lists.get? i = some l ∧
      b' = ⟨b.num_lists, b.lists.set i { l with tasks := l.tasks ++ [""] }, b.active_list⟩ := by
  obtain ⟨n, ls, a⟩ := b
  cases a with
  | zero => exact Option.noConfusion h
  | succ i =>
    dsimp only [pushEmptyTask] at h
    cases hg : ls.get? i with
    | none => rw [hg] at h; exact Option.noConfusion h
    | some l =>
      rw [hg] at h
      exact ⟨i, l, rfl, hg, (Option.some.inj h).symm⟩

/-- Inversion for `appendLastTask`. -/
theorem appendLastTask_inv (b b' : TaskBoard) (c : Char) (h : appendLastTask b c = some b') :
    ∃ i l j t, b.active_list = i + 1 ∧ b.lists.get? i = some l ∧
      l.tasks.length = j + 1 ∧ l.tasks.get? j = some t ∧
      b' = ⟨b.num_lists, b.lists.set i { l with tasks := l.tasks.set j (t ++ c.toString) },
            b.active_list⟩ := by
  obtain ⟨n, ls, a⟩ := b
  cases a with
  | zero => exact Option.noConfusion h
  | succ i =>
    dsimp only [appendLastTask] at h
    cases hg : ls.get? i with
    | none => rw [hg] at h; exact Option.noConfusion h
    | some l =>
      rw [hg] at h
      dsimp only at h
      cases hlen : l.tasks.length with
      | zero => rw [hlen] at h; exact Option.noConfusion h
      | succ j =>
        rw [hlen] at h
        dsimp only at h
        cases ht : l.tasks.get? j with
        | none => rw [ht] at h; exact Option.noConfusion h
        | some t =>
          rw [ht] at h
          exact ⟨i, l, j, t, rfl, hg, hlen, ht, (Option.some.inj h).symm⟩

/-- Inversion for `appendLastTitle`. -/
theorem appendLastTitle_inv (b b' : TaskBoard) (c : Char) (h : appendLastTitle b c = some b') :
    ∃ i l, b.num_lists = i + 1 ∧ b.lists.get? i = some l ∧
      b' = ⟨b.num_lists, b.lists.set i { l with title := l.title ++ c.toString },
            b.active_list⟩ := by
  obtain ⟨n, ls, a⟩ := b
  cases n with
  | zero => exact Option.noConfusion h
  | succ i =>
    dsimp only [appendLastTitle] at h
    cases hg : ls.get? i with
    | none => rw [hg] at h; exact Option.noConfusion h
    | some l =>
      rw [hg] at h
      exact ⟨i, l, rfl, hg, (Option.some.inj h).symm⟩

/-- Evaluation of `popLastTask` on a board whose active list exists. -/
theorem popLastTask_eq (n : Nat) (ls : List TaskList) (i : Nat) (l : TaskList)
    (hg : ls.get? i = some l) :
    popLastTask ⟨n, ls, i + 1⟩ = some ⟨n, ls.set i { l with tasks := l.tasks.dropLast }, i + 1⟩ := by
  dsimp only [popLastTask]
  rw [hg]

/-- Evaluation of `pushEmptyTask` on a board whose active list exists. -/
theorem pushEmptyTask_eq (n : Nat) (ls : List TaskList) (i : Nat) (l : TaskList)
    (hg : ls.get? i = some l) :
    pushEmptyTask ⟨n, ls, i + 1⟩ = some ⟨n, ls.set i { l with tasks := l.tasks ++ [""] }, i + 1⟩ := by
  dsimp only [pushEmptyTask]
  rw [hg]

/-- Unfolding of the `'c'` branch of the Home handler. -/
theorem stepHome_cross_eq (b : TaskBoard) (db : DB) :
    step .Home b db (.char 'c') =
      match popLastTask b with
      | none => none
      | some b' => some ⟨.Home, b', db, false, []⟩ := rfl

/-- Unfolding of the `'a'` branch of the Home handler. -/
theorem stepHome_add_eq (b : TaskBoard) (db : DB) :
    step .Home b db (.char 'a') =
      match b.num_lists with
      | 0 => some ⟨.Home, b, db, false, []⟩
      | _ + 1 =>
        match pushEmptyTask b with
        | none => none
        | some b' => some ⟨.AddingTask, b', db, false, []⟩ := rfl

/-- C3, counterexample.  The claim says the startup load never returns an
error or aborts startup for any store state, including a missing file; in
the code `read_db` propagates the `fs::read_to_string` error with `?` when
the file is missing, and `main`'s `.expect("valid read")` panics on it. -/
theorem read_db_missing_file_errors :
    read_db DB.missing = .error () ∧ startup DB.missing = none :=
  ⟨rfl, rfl⟩

/-- C3, amended.  Well-formed content loads as-is and malformed content is
recovered as the empty sequence, but a missing file yields an error and
startup panics instead of substituting an empty sequence. -/
theorem read_db_recovery_and_missing_behavior :
    read_db DB.malformed = .ok [] ∧
    (∀ ls : List TaskList, read_db (.content ls) = .ok ls) ∧
    read_db DB.missing = .error () ∧
    (∀ ls : List TaskList, startup (.content ls) = some (⟨ls.length, ls, 1⟩, [.read, .read])) ∧
    startup DB.missing = none :=
  ⟨rfl, fun _ => rfl, rfl, fun _ => rfl, rfl⟩

/-- C8.  In Browsing (`Home`), each digit key `d` assigns `active_list := d`
directly, with no range check against `num_lists`, leaving the lists,
`num_lists`, the mode, the store and the quit flag unchanged. -/
theorem digit_key_jumps_active_list_unchecked (b : TaskBoard) (db : DB) (d : Nat)
    (hd : d < 10) :
    step .Home b db (.char (Char.ofNat (48 + d))) =
      some ⟨.Home, { b with active_list := d }, db, false, []⟩ := by
  interval_cases d <;> rfl

/-- C8, witness: pressing `'9'` on a one-list board jumps `active_list`
to the out-of-range value 9. -/
theorem digit_key_jumps_active_list_unchecked_witness :
    9 < 10 ∧
    step .Home ⟨1, [⟨1, "A", []⟩], 1⟩ .malformed (.char (Char.ofNat (48 + 9))) =
      some ⟨.Home, ⟨1, [⟨1, "A", []⟩], 9⟩, .malformed, false, []⟩ :=
  ⟨by decide, digit_key_jumps_active_list_unchecked ⟨1, [⟨1, "A", []⟩], 1⟩ .malformed 9 (by decide)⟩

/-- C1, counterexample.  Board and store hold lists A, B, C (ids 1, 2, 3)
with `active_list = 2`.  The claim predicts `'d'` deletes the active list B,
renumbers C to id 2 (lists A, C) and moves `active_list` to 1.  The code's
`delete_list` instead pops the LAST stored list (C), keeps A and B, and the
handler never touches `active_list` (it stays 2). -/
theorem delete_list_key_removes_last_not_active :
    step .Home ⟨3, [⟨1, "A", []⟩, ⟨2, "B", []⟩, ⟨3, "C", []⟩], 2⟩
        (.content [⟨1, "A", []⟩, ⟨2, "B", []⟩, ⟨3, "C", []⟩]) (.char 'd') =
      some ⟨.Home, ⟨2, [⟨1, "A", []⟩, ⟨2, "B", []⟩], 2⟩,
            .content [⟨1, "A", []⟩, ⟨2, "B", []⟩], false, [.read, .write]⟩ ∧
    (2 : Nat) ≠ 1 ∧
    ([⟨1, "A", []⟩, ⟨2, "B", []⟩] : List TaskList) ≠ [⟨1, "A", []⟩, ⟨2, "C", []⟩] :=
  ⟨rfl, by decide, by decide⟩

/-- C1, amended.  The `'d'` handler replaces the board's lists with the
persisted store's lists minus their LAST element (regardless of which list
is active), updates `num_lists`, and leaves `active_list` and the mode
unchanged; ids are kept as stored (no renumbering happens, none is needed
since the popped list is the last).  On an empty or malformed store the
surviving list set is empty; on a missing store file the `.expect` panics. -/
theorem delete_list_key_replaces_board_from_store :
    (∀ (b : TaskBoard) (ls : List TaskList),
      step .Home b (.content ls) (.char 'd') =
        some ⟨.Home, { b with lists := ls.dropLast, num_lists := ls.dropLast.length },
              .content ls.dropLast, false, [.read, .write]⟩) ∧
    (∀ b : TaskBoard,
      step .Home b .malformed (.char 'd') =
        some ⟨.Home, { b with lists := [], num_lists := 0 }, .content [], false, [.read, .write]⟩) ∧
    (∀ b : TaskBoard, step .Home b .missing (.char 'd') = none) :=
  ⟨fun _ _ => rfl, fun _ => rfl, fun _ => rfl⟩

/-- C4, counterexample.  Board and store hold lists A, B and
`active_list = 1`.  The claim predicts that after `'n'` the new list has
identity 3 and `active_list` is set to 3; the code appends the new list but
never touches `active_list`, which stays 1. -/
theorem new_list_key_does_not_set_active_list :
    step .Home ⟨2, [⟨1, "A", []⟩, ⟨2, "B", []⟩], 1⟩
        (.content [⟨1, "A", []⟩, ⟨2, "B", []⟩]) (.char 'n') =
      some ⟨.AddingList, ⟨3, [⟨1, "A", []⟩, ⟨2, "B", []⟩, ⟨3, "", []⟩], 1⟩,
            .content [⟨1, "A", []⟩, ⟨2, "B", []⟩, ⟨3, "", []⟩], false, [.read, .write]⟩ ∧
    (1 : Nat) ≠ 3 :=
  ⟨rfl, by decide⟩

/-- C4, amended.  Pressing `'n'` in Browsing replaces the board's lists
with the persisted store's lists plus a new empty-titled, task-free list
whose id is the store's previous count + 1, sets `num_lists` to that count
+ 1, leaves `active_list` unchanged, and enters list-naming mode
(`AddingList`); a malformed store acts as empty and a missing store file
panics via `.expect`. -/
theorem new_list_key_appends_empty_list_from_store :
    (∀ (b : TaskBoard) (ls : List TaskList),
      step .Home b (.content ls) (.char 'n') =
        some ⟨.AddingList,
              { b with lists := ls ++ [⟨ls.length + 1, "", []⟩], num_lists := ls.length + 1 },
              .content (ls ++ [⟨ls.length + 1, "", []⟩]), false, [.read, .write]⟩) ∧
    (∀ b : TaskBoard,
      step .Home b .malformed (.char 'n') =
        some ⟨.AddingList, { b with lists := [⟨1, "", []⟩], num_lists := 1 },
              .content [⟨1, "", []⟩], false, [.read, .write]⟩) ∧
    (∀ b : TaskBoard, step .Home b .missing (.char 'n') = none) := by
  refine ⟨?_, fun _ => rfl, fun _ => rfl⟩
  intro b ls
  have h : step .Home b (.content ls) (.char 'n') =
      some ⟨.AddingList,
            { b with lists := ls ++ [⟨ls.length + 1, "", []⟩],
                     num_lists := (ls ++ [(⟨ls.length + 1, "", []⟩ : TaskList)]).length },
            .content (ls ++ [⟨ls.length + 1, "", []⟩]), false, [.read, .write]⟩ := rfl
  rw [h]
  simp

/-- C2, counterexample.  The claim says no key-event handler run
mid-session reads or writes the backing store; the `'n'` (new list) handler
in Browsing both reads and writes it in `create_list`. -/
theorem new_list_key_accesses_store_mid_session :
    step .Home ⟨0, [], 1⟩ (.content []) (.char 'n') =
      some ⟨.AddingList, ⟨1, [⟨1, "", []⟩], 1⟩, .content [⟨1, "", []⟩], false, [.read, .write]⟩ ∧
    ([FileOp.read, FileOp.write] : List FileOp) ≠ [] :=
  ⟨rfl, by decide⟩

/-- C2, amended.  Besides the load at startup and the save at shutdown,
the backing store is also read AND written mid-session, exactly by the
`'n'` (new list) and `'d'` (delete list) handlers in Browsing; every other
key-event handler performs no store access. -/
theorem store_accesses_only_new_and_delete_handlers
    (m : MenuItem) (b : TaskBoard) (db : DB) (k : Key) (r : StepResult)
    (h : step m b db k = some r) :
    r.fx = [] ∨ (m = .Home ∧ (k = .char 'n' ∨ k = .char 'd') ∧ r.fx = [.read, .write]) := by
  cases m with
  | AddingList =>
    rcases stepAddingList_cases _ _ _ _ h with ⟨-, rfl⟩ | ⟨c, -, -, b', -, rfl⟩ | rfl <;>
      exact Or.inl rfl
  | AddingTask =>
    rcases stepAddingTask_cases _ _ _ _ h with ⟨-, rfl⟩ | ⟨c, -, -, b', -, rfl⟩ | rfl <;>
      exact Or.inl rfl
  | Home =>
    cases k with
    | char c =>
      rcases stepHome_char_cases _ _ _ _ h with
        ⟨hc, rfl⟩ | ⟨hc, ls, db', -, rfl⟩ | ⟨hc, -, rfl⟩ | ⟨hc, -, b', -, rfl⟩ |
        ⟨hc, b', -, rfl⟩ | ⟨hc, ls, db', -, rfl⟩ | ⟨hc, rfl⟩ | ⟨hc, rfl⟩ |
        ⟨d, -, hc, rfl⟩ | rfl
      · exact Or.inl rfl
      · exact Or.inr ⟨rfl, Or.inl (by rw [hc]), rfl⟩
      · exact Or.inl rfl
      · exact Or.inl rfl
      · exact Or.inl rfl
      · exact Or.inr ⟨rfl, Or.inr (by rw [hc]), rfl⟩
      · exact Or.inl rfl
      · exact Or.inl rfl
      · exact Or.inl rfl
      · exact Or.inl rfl
    | enter => obtain rfl := (Option.some.inj h).symm; exact Or.inl rfl
    | backspace => obtain rfl := (Option.some.inj h).symm; exact Or.inl rfl
    | left => obtain rfl := (Option.some.inj h).symm; exact Or.inl rfl
    | right => obtain rfl := (Option.some.inj h).symm; exact Or.inl rfl
    | other => obtain rfl := (Option.some.inj h).symm; exact Or.inl rfl

/-- C2, amended, witness: the Enter key in Browsing performs no store
access. -/
theorem store_accesses_only_new_and_delete_handlers_witness :
    (⟨.Home, ⟨0, [], 1⟩, .malformed, false, []⟩ : StepResult).fx = [] ∨
      (MenuItem.Home = MenuItem.Home ∧
        (Key.enter = Key.char 'n' ∨ Key.enter = Key.char 'd') ∧
        (⟨.Home, ⟨0, [], 1⟩, .malformed, false, []⟩ : StepResult).fx = [.read, .write]) :=
  store_accesses_only_new_and_delete_handlers .Home ⟨0, [], 1⟩ .malformed .enter _ rfl

/-- Keys excluded by the amended invariant claim C5: a digit jump, or the
store-interacting `'n'` / `'d'` commands. -/
def jumpOrStoreKey : Key → Bool
  | .char c => (('0' ≤ c && c ≤ '9') || c == 'n' || c == 'd')
  | _ => false

/-- C5, counterexample.  Three handlers violate `1 ≤ active_list ≤
num_lists`: a digit key jumps without a range check (here `'0'` on a
one-list board makes `active_list = 0`); `'n'` reloads the lists from the
store, which can shrink the board below `active_list` (here a malformed
store yields one list while `active_list` stays 2); `'d'` shrinks the board
without adjusting `active_list` (here 2 lists become 1 with
`active_list = 2`). -/
theorem active_list_invariant_violations :
    (step .Home ⟨1, [⟨1, "A", []⟩], 1⟩ (.content [⟨1, "A", []⟩]) (.char '0') =
        some ⟨.Home, ⟨1, [⟨1, "A", []⟩], 0⟩, .content [⟨1, "A", []⟩], false, []⟩ ∧
      ¬ 1 ≤ (0 : Nat)) ∧
    (step .Home ⟨2, [⟨1, "A", []⟩, ⟨2, "B", []⟩], 2⟩ .malformed (.char 'n') =
        some ⟨.AddingList, ⟨1, [⟨1, "", []⟩], 2⟩, .content [⟨1, "", []⟩], false, [.read, .write]⟩ ∧
      ¬ (2 : Nat) ≤ 1) ∧
    (step .Home ⟨2, [⟨1, "A", []⟩, ⟨2, "B", []⟩], 2⟩
        (.content [⟨1, "A", []⟩, ⟨2, "B", []⟩]) (.char 'd') =
        some ⟨.Home, ⟨1, [⟨1, "A", []⟩], 2⟩, .content [⟨1, "A", []⟩], false, [.read, .write]⟩ ∧
      ¬ (2 : Nat) ≤ 1) :=
  ⟨⟨rfl, by decide⟩, ⟨rfl, by decide⟩, ⟨rfl, by decide⟩⟩

/-- C5, amended.  Every key-event handler EXCEPT the digit jumps and the
store-interacting `'n'`/`'d'` commands preserves
`1 ≤ active_list ≤ num_lists`; the excluded ones can violate it. -/
theorem safe_keys_preserve_active_list_invariant
    (m : MenuItem) (b : TaskBoard) (db : DB) (k : Key) (r : StepResult)
    (hk : m = .Home → jumpOrStoreKey k = false)
    (h1 : 1 ≤ b.active_list) (h2 : b.active_list ≤ b.num_lists)
    (h : step m b db k = some r) :
    1 ≤ r.board.active_list ∧ r.board.active_list ≤ r.board.num_lists := by
  cases m with
  | AddingList =>
    rcases stepAddingList_cases _ _ _ _ h with ⟨-, rfl⟩ | ⟨c, -, -, b', hp, rfl⟩ | rfl
    · exact ⟨h1, h2⟩
    · obtain ⟨i, l, hi, hg, rfl⟩ := appendLastTitle_inv _ _ _ hp
      exact ⟨h1, h2⟩
    · exact ⟨h1, h2⟩
  | AddingTask =>
    rcases stepAddingTask_cases _ _ _ _ h with ⟨-, rfl⟩ | ⟨c, -, -, b', hp, rfl⟩ | rfl
    · exact ⟨h1, h2⟩
    · obtain ⟨i, l, j, t, hi, hg, hlen, ht, rfl⟩ := appendLastTask_inv _ _ _ hp
      exact ⟨h1, h2⟩
    · exact ⟨h1, h2⟩
  | Home =>
    have hk' := hk rfl
    cases k with
    | char c =>
      rcases stepHome_char_cases _ _ _ _ h with
        ⟨hc, rfl⟩ | ⟨hc, ls, db', hcl, rfl⟩ | ⟨hc, -, rfl⟩ | ⟨hc, -, b', hp, rfl⟩ |
        ⟨hc, b', hp, rfl⟩ | ⟨hc, ls, db', hdl, rfl⟩ | ⟨hc, rfl⟩ | ⟨hc, rfl⟩ |
        ⟨d, hd, hc, rfl⟩ | rfl
      · exact ⟨h1, h2⟩
      · exact absurd hk' (by rw [hc]; decide)
      · exact ⟨h1, h2⟩
      · obtain ⟨i, l, hi, hg, rfl⟩ := pushEmptyTask_inv _ _ hp
        exact ⟨h1, h2⟩
      · obtain ⟨i, l, hi, hg, rfl⟩ := popLastTask_inv _ _ hp
        exact ⟨h1, h2⟩
      · exact absurd hk' (by rw [hc]; decide)
      · by_cases hb : b.active_list > 1 <;> simp only [hb, if_pos, if_neg, not_false_iff] <;>
          constructor <;> omega
      · by_cases hb : b.active_list < b.num_lists <;>
          simp only [hb, if_pos, if_neg, not_false_iff] <;> constructor <;> omega
      · refine absurd hk' ?_
        rw [hc]
        interval_cases d <;> decide
      · exact ⟨h1, h2⟩
    | enter => obtain rfl := (Option.some.inj h).symm; exact ⟨h1, h2⟩
    | backspace => obtain rfl := (Option.some.inj h).symm; exact ⟨h1, h2⟩
    | left =>
      obtain rfl := (Option.some.inj h).symm
      by_cases hb : b.active_list > 1 <;> simp only [hb, if_pos, if_neg, not_false_iff] <;>
        constructor <;> omega
    | right =>
      obtain rfl := (Option.some.inj h).symm
      by_cases hb : b.active_list < b.num_lists <;>
        simp only [hb, if_pos, if_neg, not_false_iff] <;> constructor <;> omega
    | other => obtain rfl := (Option.some.inj h).symm; exact ⟨h1, h2⟩

/-- C5, amended, witness: the `'h'` navigation key on a two-list board with
`active_list = 2` preserves the invariant. -/
theorem safe_keys_preserve_active_list_invariant_witness :
    1 ≤ (⟨.Home, ⟨2, [⟨1, "A", []⟩, ⟨2, "B", []⟩], 1⟩, .malformed, false, []⟩
          : StepResult).board.active_list ∧
    (⟨.Home, ⟨2, [⟨1, "A", []⟩, ⟨2, "B", []⟩], 1⟩, .malformed, false, []⟩
          : StepResult).board.active_list ≤
      (⟨.Home, ⟨2, [⟨1, "A", []⟩, ⟨2, "B", []⟩], 1⟩, .malformed, false, []⟩
          : StepResult).board.num_lists :=
  safe_keys_preserve_active_list_invariant .Home ⟨2, [⟨1, "A", []⟩, ⟨2, "B", []⟩], 2⟩
    .malformed (.char 'h') _ (fun _ => by decide) (by decide) (by decide) rfl

/-- C6, counterexample.  The active (and only) list holds two tasks.  The
claim predicts `'d'` deletes the selected task, leaving the list in place
with one task; the code's `'d'` handler instead runs `delete_list`, which
removes the entire last list: the result has 0 lists and both tasks are
gone (the key that removes a task is `'c'`, and it pops the LAST task). -/
theorem d_key_deletes_list_not_task :
    step .Home ⟨1, [⟨1, "A", ["t1", "t2"]⟩], 1⟩ (.content [⟨1, "A", ["t1", "t2"]⟩]) (.char 'd') =
      some ⟨.Home, ⟨0, [], 1⟩, .content [], false, [.read, .write]⟩ ∧
    (0 : Nat) ≠ 1 ∧
    step .Home ⟨1, [⟨1, "A", ["t1", "t2"]⟩], 1⟩ (.content [⟨1, "A", ["t1", "t2"]⟩]) (.char 'c') =
      some ⟨.Home, ⟨1, [⟨1, "A", ["t1"]⟩], 1⟩, .content [⟨1, "A", ["t1", "t2"]⟩], false, []⟩ :=
  ⟨rfl, by decide, rfl⟩

/-- C6, amended.  The key that removes a task in Browsing is `'c'` (not
`'d'`): it pops the LAST task of the active list (there is no selection
index in the code), leaving everything else unchanged; when the active
list has no tasks, `Vec::pop` makes it a no-op on the board. -/
theorem c_key_pops_last_task_of_active_list
    (b : TaskBoard) (db : DB) (i : Nat) (l : TaskList)
    (ha : b.active_list = i + 1) (hg : b.lists.get? i = some l) :
    step .Home b db (.char 'c') =
      some ⟨.Home, ⟨b.num_lists, b.lists.set i { l with tasks := l.tasks.dropLast },
            b.active_list⟩, db, false, []⟩ ∧
    (l.tasks = [] → b.lists.set i { l with tasks := l.tasks.dropLast } = b.lists) := by
  constructor
  · rw [stepHome_cross_eq]
    obtain ⟨n, ls, a⟩ := b
    dsimp only at ha hg ⊢
    subst ha
    rw [popLastTask_eq n ls i l hg]
  · intro hl
    have he : { l with tasks := l.tasks.dropLast } = l := by
      obtain ⟨lid, lt, lts⟩ := l
      dsimp only at hl
      subst hl
      rfl
    rw [he]
    exact set_get_self _ _ _ hg

/-- C6, amended, witness: `'c'` on a board whose active list has one task
pops it. -/
theorem c_key_pops_last_task_of_active_list_witness :
    (step .Home ⟨1, [⟨1, "A", ["t"]⟩], 1⟩ .malformed (.char 'c') =
      some ⟨.Home, ⟨1, [⟨1, "A", []⟩], 1⟩, .malformed, false, []⟩) ∧
    ((⟨1, "A", ["t"]⟩ : TaskList).tasks = [] →
      ([⟨1, "A", ["t"]⟩] : List TaskList).set 0 ⟨1, "A", []⟩ = [⟨1, "A", ["t"]⟩]) :=
  c_key_pops_last_task_of_active_list ⟨1, [⟨1, "A", ["t"]⟩], 1⟩ .malformed 0
    ⟨1, "A", ["t"]⟩ rfl rfl

/-- C7, counterexample.  Tasks in the code are bare strings with no due
date at all (`tasks: Vec<String>`); pressing `'a'` appends the EMPTY
string, so no "Task with a placeholder due date" is created — the appended
entry has length 0 and contains no date text. -/
theorem a_key_appends_empty_string_task :
    step .Home ⟨1, [⟨1, "A", []⟩], 1⟩ .malformed (.char 'a') =
      some ⟨.AddingTask, ⟨1, [⟨1, "A", [""]⟩], 1⟩, .malformed, false, []⟩ ∧
    ("" : String).length = 0 :=
  ⟨rfl, rfl⟩

/-- C7, amended.  Pressing `'a'` in Browsing is a silent no-op when
`num_lists == 0` (board, store and mode unchanged); when `num_lists > 0`
it appends a new EMPTY task string (tasks carry no due-date field) to the
active list and enters task-titling (`AddingTask`) mode. -/
theorem a_key_noop_on_zero_and_appends_empty_task :
    (∀ (b : TaskBoard) (db : DB), b.num_lists = 0 →
      step .Home b db (.char 'a') = some ⟨.Home, b, db, false, []⟩) ∧
    (∀ (b : TaskBoard) (db : DB) (i : Nat) (l : TaskList), b.num_lists ≠ 0 →
      b.active_list = i + 1 → b.lists.get? i = some l →
      step .Home b db (.char 'a') =
        some ⟨.AddingTask, ⟨b.num_lists, b.lists.set i { l with tasks := l.tasks ++ [""] },
              b.active_list⟩, db, false, []⟩) := by
  constructor
  · intro b db h0
    rw [stepHome_add_eq, h0]
  · intro b db i l hn ha hg
    rw [stepHome_add_eq]
    obtain ⟨n, ls, a⟩ := b
    dsimp only at hn ha hg ⊢
    subst ha
    cases n with
    | zero => exact absurd rfl hn
    | succ m => rw [pushEmptyTask_eq (m + 1) ls i l hg]

/-- C7, amended, witness: `'a'` is a no-op on a zero-list board and appends
an empty task string on a one-list board. -/
theorem a_key_noop_on_zero_and_appends_empty_task_witness :
    (step .Home ⟨0, [], 1⟩ .malformed (.char 'a') =
      some ⟨.Home, ⟨0, [], 1⟩, .malformed, false, []⟩) ∧
    (step .Home ⟨1, [⟨1, "A", []⟩], 1⟩ .malformed (.char 'a') =
      some ⟨.AddingTask, ⟨1, [⟨1, "A", [""]⟩], 1⟩, .malformed, false, []⟩) :=
  ⟨a_key_noop_on_zero_and_appends_empty_task.1 ⟨0, [], 1⟩ .malformed rfl,
   a_key_noop_on_zero_and_appends_empty_task.2 ⟨1, [⟨1, "A", []⟩], 1⟩ .malformed 0
     ⟨1, "A", []⟩ (by decide) rfl rfl⟩

/-- C9, counterexample.  `handle_events` has NO Backspace branch in any
editing mode, so Backspace is a no-op; inserting `'x'` into an
empty-titled list and pressing Backspace leaves the title `"x"`, not the
starting empty title, so Insert-then-Backspace is not a round trip. -/
theorem insert_backspace_not_roundtrip :
    step .AddingList ⟨1, [⟨1, "", []⟩], 1⟩ .malformed (.char 'x') =
      some ⟨.AddingList, ⟨1, [⟨1, "x", []⟩], 1⟩, .malformed, false, []⟩ ∧
    step .AddingList ⟨1, [⟨1, "x", []⟩], 1⟩ .malformed .backspace =
      some ⟨.AddingList, ⟨1, [⟨1, "x", []⟩], 1⟩, .malformed, false, []⟩ ∧
    (⟨1, [⟨1, "x", []⟩], 1⟩ : TaskBoard) ≠ ⟨1, [⟨1, "", []⟩], 1⟩ :=
  ⟨by decide, rfl, by decide⟩

/-- C9, amended.  Backspace is ALWAYS a no-op in both editing modes (the
source has no Backspace branch), so Backspace on an empty field is
trivially a no-op, and Insert(c) followed by Backspace leaves the edited
title equal to its starting value with `c` appended — not equal to the
starting value. -/
theorem backspace_is_noop_in_edit_modes :
    (∀ (b : TaskBoard) (db : DB),
      step .AddingList b db .backspace = some ⟨.AddingList, b, db, false, []⟩) ∧
    (∀ (b : TaskBoard) (db : DB),
      step .AddingTask b db .backspace = some ⟨.AddingTask, b, db, false, []⟩) ∧
    (∀ (b : TaskBoard) (db : DB) (c : Char) (i : Nat) (l : TaskList) (r1 r2 : StepResult),
      typable c = true → b.num_lists = i + 1 → b.lists.get? i = some l →
      step .AddingList b db (.char c) = some r1 →
      step .AddingList r1.board r1.db .backspace = some r2 →
      r2.board.lists.get? i = some { l with title := l.title ++ c.toString }) := by
  refine ⟨fun _ _ => rfl, fun _ _ => rfl, ?_⟩
  intro b db c i l r1 r2 ht hn hg h1 h2
  have e1 : step .AddingList b db (.char c) =
      match appendLastTitle b c with
      | none => none
      | some b' => some ⟨.AddingList, b', db, false, []⟩ := by
    show stepAddingList b db (.char c) = _
    simp only [stepAddingList, ht, if_pos]
  rw [e1] at h1
  cases hp : appendLastTitle b c with
  | none => rw [hp] at h1; exact Option.noConfusion h1
  | some b' =>
    rw [hp] at h1
    obtain rfl := (Option.some.inj h1).symm
    obtain ⟨i', l', hi', hg', rfl⟩ := appendLastTitle_inv _ _ _ hp
    have hii : i' = i := by omega
    subst hii
    have hll : l' = l := Option.some.inj (hg'.symm.trans hg)
    subst hll
    obtain rfl := (Option.some.inj h2).symm
    obtain ⟨hi2, -⟩ := List.get?_eq_some.mp hg
    simpa using List.get?_set_eq_of_lt _ hi2

/-- C9, amended, witness: inserting `'x'` into an empty title then
Backspace leaves the title `"x"` (the start value with `'x'` appended). -/
theorem backspace_is_noop_in_edit_modes_witness :
    ((⟨.AddingList, ⟨1, [⟨1, "x", []⟩], 1⟩, .malformed, false, []⟩ : StepResult).board.lists.get? 0 =
      some ⟨1, "" ++ "x", []⟩) :=
  backspace_is_noop_in_edit_modes.2.2 ⟨1, [⟨1, "", []⟩], 1⟩ .malformed 'x' 0 ⟨1, "", []⟩
    ⟨.AddingList, ⟨1, [⟨1, "x", []⟩], 1⟩, .malformed, false, []⟩
    ⟨.AddingList, ⟨1, [⟨1, "x", []⟩], 1⟩, .malformed, false, []⟩
    (by decide) rfl rfl (by decide) (by decide)

/-- C10.  In list-naming (`AddingList`) mode every key event, when it does
not panic, leaves the store, the quit flag, `num_lists`, `active_list`,
the number of lists, every list other than the last
(`num_lists - 1`), and the last list's id and task vector unchanged;
only the last list's title may change, and the mode changes only on Enter
(back to `Home`). -/
theorem adding_list_mode_frame
    (b : TaskBoard) (db : DB) (k : Key) (r : StepResult)
    (h : step .AddingList b db k = some r) :
    r.db = db ∧ r.quit = false ∧ r.fx = [] ∧
    r.board.num_lists = b.num_lists ∧ r.board.active_list = b.active_list ∧
    r.board.lists.length = b.lists.length ∧
    (∀ j, j ≠ b.num_lists - 1 → r.board.lists.get? j = b.lists.get? j) ∧
    (∀ l l', b.lists.get? (b.num_lists - 1) = some l →
      r.board.lists.get? (b.num_lists - 1) = some l' → l'.id = l.id ∧ l'.tasks = l.tasks) ∧
    (r.menu = .AddingList ∨ (k = .enter ∧ r.menu = .Home)) := by
  rcases stepAddingList_cases _ _ _ _ h with ⟨hk, rfl⟩ | ⟨c, -, -, b', hp, rfl⟩ | rfl
  · refine ⟨rfl, rfl, rfl, rfl, rfl, rfl, fun j _ => rfl, ?_, Or.inr ⟨hk, rfl⟩⟩
    intro l l' e1 e2
    obtain rfl := Option.some.inj (e1.symm.trans e2)
    exact ⟨rfl, rfl⟩
  · obtain ⟨e1, e2, e3, e4, l0, hl0, hl0'⟩ := appendLastTitle_frame _ _ _ hp
    refine ⟨rfl, rfl, rfl, e1, e2, e3, e4, ?_, Or.inl rfl⟩
    intro l l' f1 f2
    obtain rfl := Option.some.inj (hl0.symm.trans f1)
    obtain rfl := Option.some.inj (hl0'.symm.trans f2)
    exact ⟨rfl, rfl⟩
  · refine ⟨rfl, rfl, rfl, rfl, rfl, rfl, fun j _ => rfl, ?_, Or.inl rfl⟩
    intro l l' e1 e2
    obtain rfl := Option.some.inj (e1.symm.trans e2)
    exact ⟨rfl, rfl⟩

/-- C10, witness: Enter in list-naming mode on a one-list board. -/
theorem adding_list_mode_frame_witness :
    (⟨.Home, ⟨1, [⟨1, "A", ["t"]⟩], 1⟩, .malformed, false, []⟩ : StepResult).db = .malformed ∧
    (⟨.Home, ⟨1, [⟨1, "A", ["t"]⟩], 1⟩, .malformed, false, []⟩ : StepResult).quit = false ∧
    (⟨.Home, ⟨1, [⟨1, "A", ["t"]⟩], 1⟩, .malformed, false, []⟩ : StepResult).fx = [] ∧
    (⟨.Home, ⟨1, [⟨1, "A", ["t"]⟩], 1⟩, .malformed, false, []⟩
        : StepResult).board.num_lists = 1 ∧
    (⟨.Home, ⟨1, [⟨1, "A", ["t"]⟩], 1⟩, .malformed, false, []⟩
        : StepResult).board.active_list = 1 ∧
    (⟨.Home, ⟨1, [⟨1, "A", ["t"]⟩], 1⟩, .malformed, false, []⟩
        : StepResult).board.lists.length = 1 ∧
    (∀ j, j ≠ 1 - 1 →
      (⟨.Home, ⟨1, [⟨1, "A", ["t"]⟩], 1⟩, .malformed, false, []⟩
          : StepResult).board.lists.get? j = ([⟨1, "A", ["t"]⟩] : List TaskList).get? j) ∧
    (∀ l l', ([⟨1, "A", ["t"]⟩] : List TaskList).get? (1 - 1) = some l →
      (⟨.Home, ⟨1, [⟨1, "A", ["t"]⟩], 1⟩, .malformed, false, []⟩
          : StepResult).board.lists.get? (1 - 1) = some l' →
      l'.id = l.id ∧ l'.tasks = l.tasks) ∧
    ((⟨.Home, ⟨1, [⟨1, "A", ["t"]⟩], 1⟩, .malformed, false, []⟩ : StepResult).menu =
        .AddingList ∨
      (Key.enter = Key.enter ∧
        (⟨.Home, ⟨1, [⟨1, "A", ["t"]⟩], 1⟩, .malformed, false, []⟩ : StepResult).menu = .Home)) :=
  adding_list_mode_frame ⟨1, [⟨1, "A", ["t"]⟩], 1⟩ .malformed .enter _ rfl
